import Mathlib

/-!
Verification of the alchemy engine of `skyrim-alchemy-rs` against its
natural-language specification.

The Rust sources are shallowly embedded: mod names and global form ids are
encoded injectively as naturals (`gid` stands for the `(mod_name, id)` pair
produced by `get_global_form_id`); `u32` quantities are naturals; the
floating-point per-effect gold value computation is abstracted as an
uninterpreted parameter `gv : IngredientEffect → Nat` wherever a theorem
does not depend on the concrete value.
-/

/-- Embeds `IngredientEffect` (src/plugin_parser/ingredient.rs).
`form_id` is the raw local u32, `gid` encodes the `(mod_name, id)` pair
returned by `get_global_form_id`, `magnitude` the bit pattern of the `f32`
magnitude.  Rust's derived `PartialEq` compares all fields, which the
derived `DecidableEq` mirrors. -/
structure IngredientEffect where
  form_id : Nat
  gid : Nat
  duration : Nat
  magnitude : Nat
deriving DecidableEq, Repr

/-- Embeds `Ingredient` (src/plugin_parser/ingredient.rs).  `gid` encodes the
`(mod_name, id)` pair that Rust's manual `PartialEq`/`Hash` impls use as the
ingredient's identity. -/
structure Ingredient where
  gid : Nat
  effects : List IngredientEffect
deriving DecidableEq, Repr

/-- Embeds `Ingredient::shares_effects_with` (src/plugin_parser/ingredient.rs):
`self.effects.iter().any(|self_effect| other.effects.iter().contains(self_effect))`.
`Itertools::contains` compares whole `IngredientEffect` records with the
derived `PartialEq`. -/
def Ingredient.shares_effects_with (a b : Ingredient) : Bool :=
  a.effects.any (fun e => b.effects.contains e)

/-- Embeds the filter closure of `PotionsList::build_potions_2`
(src/potions_list.rs): a 2-ingredient combo is kept exactly when
`a.shares_effects_with(b)`. -/
def valid_combo_2 (a b : Ingredient) : Bool :=
  a.shares_effects_with b

/-- C3 counterexample data: one effect record per ingredient, same global
effect id `5`, same magnitude, but different durations. -/
def c3IngA : Ingredient :=
  { gid := 1, effects := [{ form_id := 5, gid := 5, duration := 0, magnitude := 10 }] }

def c3IngB : Ingredient :=
  { gid := 2, effects := [{ form_id := 5, gid := 5, duration := 30, magnitude := 10 }] }

/-- C3, counterexample: the two ingredients attach the same magic-effect id 5
(so their effect-id sets intersect), yet `shares_effects_with` returns
`false`, because it compares whole `IngredientEffect` records — including
the duration, which differs.  This refutes the claim that the result ignores
magnitude and duration. -/
theorem c3_counterexample :
    c3IngA.effects.map IngredientEffect.gid = [5] ∧
    c3IngB.effects.map IngredientEffect.gid = [5] ∧
    c3IngA.shares_effects_with c3IngB = false := by
  decide

/-- C3 (amended): `shares_effects_with a b` is true iff some complete
`IngredientEffect` record (raw form id, global effect id, duration and
magnitude all equal) occurs in both ingredients' effect lists — not merely a
shared effect id — and the 2-ingredient validity filter is exactly this
predicate. -/
theorem c3_shares_effects_with_iff (a b : Ingredient) :
    (a.shares_effects_with b = true ↔ ∃ e, e ∈ a.effects ∧ e ∈ b.effects) ∧
    valid_combo_2 a b = a.shares_effects_with b := by
  constructor
  · simp only [Ingredient.shares_effects_with, List.any_eq_true,
      List.contains_iff_exists_mem_beq, beq_iff_eq]
    constructor
    · rintro ⟨e, he, e2, he2, rfl⟩
      exact ⟨e, he, he2⟩
    · rintro ⟨e, he, hme⟩
      exact ⟨e, he, e, hme, rfl⟩
  · rfl

/-- Modelled from the spec: `Ingredient::effects_shared_with`, called by
`PotionsList::build_potions_3`, is not defined in the sources under src/.
Per the spec (§4.5) an edge between two ingredients exists iff they share at
least one effect id and the edge carries the set of shared effect ids, so the
method is modelled as the effects of `a` whose global effect id also occurs
among `b`'s effects. -/
def Ingredient.effects_shared_with (a b : Ingredient) : List IngredientEffect :=
  a.effects.filter (fun e => b.effects.any (fun e2 => e2.gid == e.gid))

/-- The shared-effect-id set of an edge: `build_potions_3` collects
`eff.get_global_form_id()` over the shared effects into an `AHashSet`. -/
def edgeIds (a b : Ingredient) : List Nat :=
  (a.effects_shared_with b).map IngredientEffect.gid

/-- Two id lists denote the same set — i.e. their
`AHashSet::symmetric_difference` is empty. -/
def sameIdSet (l1 l2 : List Nat) : Bool :=
  l1.all (l2.contains ·) && l2.all (l1.contains ·)

/-- Embeds `edges_are_not_the_same` (src/potions_list.rs) for
`edge_3 == None`: the two edges' id sets have a nonempty symmetric
difference. -/
def edges_not_same_2 (e1 e2 : List Nat) : Bool := ! sameIdSet e1 e2

/-- Embeds `edges_are_not_the_same` (src/potions_list.rs) for
`edge_3 == Some(..)`:
`(edges_1_2_have_diff && (edges_3_1_have_diff || edges_2_3_have_diff)) ||
 (edges_3_1_have_diff && edges_2_3_have_diff)`. -/
def edges_not_same_3 (e1 e2 e3 : List Nat) : Bool :=
  ((! sameIdSet e1 e2) && ((! sameIdSet e3 e1) || (! sameIdSet e2 e3))) ||
    ((! sameIdSet e3 e1) && (! sameIdSet e2 e3))

/-- Embeds the filter closure of `PotionsList::build_potions_3`
(src/potions_list.rs): edge presence is `peek().is_some()` on the shared
effects, then the `match` over the three presence flags. -/
def valid_combo_3 (a b c : Ingredient) : Bool :=
  match !(edgeIds a b).isEmpty, !(edgeIds b c).isEmpty, !(edgeIds c a).isEmpty with
  | true, true, false => edges_not_same_2 (edgeIds a b) (edgeIds b c)
  | true, false, true => edges_not_same_2 (edgeIds a b) (edgeIds c a)
  | false, true, true => edges_not_same_2 (edgeIds b c) (edgeIds c a)
  | true, true, true => edges_not_same_3 (edgeIds a b) (edgeIds b c) (edgeIds c a)
  | _, _, _ => false

/-- The acceptance condition as claim C4 words it: with 0 or 1 edges the
triple is invalid; with exactly 2 edges it is valid iff the two edges' sets
differ; with all 3 edges it is valid iff at least one pair of edges' sets
differ. -/
def valid3Claim (a b c : Ingredient) : Bool :=
  match !(edgeIds a b).isEmpty, !(edgeIds b c).isEmpty, !(edgeIds c a).isEmpty with
  | true, true, false => ! sameIdSet (edgeIds a b) (edgeIds b c)
  | true, false, true => ! sameIdSet (edgeIds a b) (edgeIds c a)
  | false, true, true => ! sameIdSet (edgeIds b c) (edgeIds c a)
  | true, true, true =>
      ! sameIdSet (edgeIds a b) (edgeIds b c) || ! sameIdSet (edgeIds b c) (edgeIds c a) ||
        ! sameIdSet (edgeIds c a) (edgeIds a b)
  | _, _, _ => false

theorem sameIdSet_iff {l1 l2 : List Nat} :
    sameIdSet l1 l2 = true ↔ (∀ x ∈ l1, x ∈ l2) ∧ (∀ x ∈ l2, x ∈ l1) := by
  simp [sameIdSet, List.all_eq_true, List.contains_iff_exists_mem_beq]

theorem sameIdSet_symm {l1 l2 : List Nat} (h : sameIdSet l1 l2 = true) :
    sameIdSet l2 l1 = true := by
  rw [sameIdSet_iff] at h ⊢
  exact ⟨h.2, h.1⟩

theorem sameIdSet_trans {l1 l2 l3 : List Nat} (h12 : sameIdSet l1 l2 = true)
    (h23 : sameIdSet l2 l3 = true) : sameIdSet l1 l3 = true := by
  rw [sameIdSet_iff] at h12 h23 ⊢
  exact ⟨fun x hx => h23.1 x (h12.1 x hx), fun x hx => h12.2 x (h23.2 x hx)⟩

/-- C4 example data: ingredients A with effect ids {10, 11}, B with
{11, 12}, C with {12, 13}. -/
def c4IngA : Ingredient :=
  { gid := 1, effects := [{ form_id := 10, gid := 10, duration := 1, magnitude := 1 },
                          { form_id := 11, gid := 11, duration := 1, magnitude := 1 }] }

def c4IngB : Ingredient :=
  { gid := 2, effects := [{ form_id := 11, gid := 11, duration := 1, magnitude := 1 },
                          { form_id := 12, gid := 12, duration := 1, magnitude := 1 }] }

def c4IngC : Ingredient :=
  { gid := 3, effects := [{ form_id := 12, gid := 12, duration := 1, magnitude := 1 },
                          { form_id := 13, gid := 13, duration := 1, magnitude := 1 }] }

/-- C4: the `build_potions_3` validity filter accepts a triple exactly as the
claim describes — 0 or 1 edges invalid; exactly 2 edges valid iff the two
edges' shared-effect-id sets differ; 3 edges valid iff at least one pair of
edge sets differ — and the concrete triple A {X,Y}, B {Y,Z}, C {Z,W} is
accepted.  (`effects_shared_with` is modelled from the spec, see its
definition.) -/
theorem c4_valid_combo_3_iff_claim :
    (∀ a b c : Ingredient, valid_combo_3 a b c = valid3Claim a b c) ∧
    valid_combo_3 c4IngA c4IngB c4IngC = true := by
  refine ⟨fun a b c => ?_, by decide⟩
  unfold valid_combo_3 valid3Claim
  cases hab : (edgeIds a b).isEmpty <;> cases hbc : (edgeIds b c).isEmpty <;>
    cases hca : (edgeIds c a).isEmpty <;> try rfl
  -- remaining case: all three edges present
  show edges_not_same_3 (edgeIds a b) (edgeIds b c) (edgeIds c a) =
      (! sameIdSet (edgeIds a b) (edgeIds b c) || ! sameIdSet (edgeIds b c) (edgeIds c a) ||
        ! sameIdSet (edgeIds c a) (edgeIds a b))
  unfold edges_not_same_3
  cases h12 : sameIdSet (edgeIds a b) (edgeIds b c) <;>
    cases h23 : sameIdSet (edgeIds b c) (edgeIds c a) <;>
      cases h31 : sameIdSet (edgeIds c a) (edgeIds a b) <;> try rfl
  -- the three remaining patterns have exactly one differing pair of edge
  -- sets, which set-equality transitivity rules out
  · exact absurd (sameIdSet_symm (sameIdSet_trans h23 h31)) (by simp [h12])
  · exact absurd (sameIdSet_symm (sameIdSet_trans h31 h12)) (by simp [h23])
  · exact absurd (sameIdSet_symm (sameIdSet_trans h12 h23)) (by simp [h31])

/-- Embeds `PotionEffect` (src/potion.rs): its observable identity is the
underlying effect's global form id plus the computed gold value; the
floating-point `get_gold_value` computation is abstracted as a parameter
`gv : IngredientEffect → Nat` at each use. -/
structure PotionEffect where
  gid : Nat
  gold : Nat
deriving DecidableEq, Repr

/-- Embeds `Potion` (src/potion.rs); the lazily-cached `gold_value`
`OnceCell` is the pure function `Potion.get_gold_value`. -/
structure Potion where
  ingredients : List Ingredient
  effects : List PotionEffect
deriving DecidableEq, Repr

/-- Embeds `Potion::get_gold_value` (src/potion.rs): the sum of the
effects' gold values. -/
def Potion.get_gold_value (p : Potion) : Nat :=
  (p.effects.map PotionEffect.gold).sum

/-- Embeds `Potion::get_primary_effect` (src/potion.rs):
`self.effects.first()`, whose `.unwrap()` panics exactly when the result
here is `none`. -/
def Potion.get_primary_effect (p : Potion) : Option PotionEffect :=
  p.effects.head?

/-- Embeds `PotionCraftError` (src/potion.rs). -/
inductive PotionCraftError where
  | duplicateIngredient (i : Ingredient)
  | invalidIngredient (i : Ingredient)
  | notEnoughIngredients
  | noSharedEffects
deriving DecidableEq, Repr

/-- `counts_by(get_global_form_id)` of a pooled effects list, read at one
global id. -/
def countGid (l : List IngredientEffect) (g : Nat) : Nat :=
  l.countP (fun e => e.gid == g)

/-- Helper for `coalesceStrongest`: `cur` is the element currently being
coalesced with its successors. -/
def coalesceGo (cur : PotionEffect) : List PotionEffect → List PotionEffect
  | [] => [cur]
  | b :: rest =>
    if cur.gid = b.gid then coalesceGo (if b.gold ≤ cur.gold then cur else b) rest
    else cur :: coalesceGo b rest

/-- Embeds the `coalesce` step of `Potion::from_ingredients`
(src/potion.rs): adjacent effects with equal global form id are merged,
keeping the more valuable one (`>=`, so the first wins ties). -/
def coalesceStrongest : List PotionEffect → List PotionEffect
  | [] => []
  | a :: rest => coalesceGo a rest

theorem coalesceGo_ne_nil : ∀ (l : List PotionEffect) (cur : PotionEffect),
    coalesceGo cur l ≠ []
  | [], cur => by simp [coalesceGo]
  | b :: rest, cur => by
    rw [coalesceGo]
    by_cases hg : cur.gid = b.gid
    · simp only [hg, if_true]
      exact coalesceGo_ne_nil rest _
    · simp [hg]

theorem coalesceGo_mem : ∀ (l : List PotionEffect) (cur x : PotionEffect),
    x ∈ coalesceGo cur l → x = cur ∨ x ∈ l
  | [], cur, x => by simp [coalesceGo]
  | b :: rest, cur, x => by
    rw [coalesceGo]
    by_cases hg : cur.gid = b.gid
    · simp only [hg, if_true]
      intro h
      rcases coalesceGo_mem rest _ x h with hc | hr
      · by_cases hgold : b.gold ≤ cur.gold <;> simp_all
      · simp [hr]
    · simp only [hg, if_false, List.mem_cons]
      rintro (hc | hr)
      · exact Or.inl hc
      · rcases coalesceGo_mem rest b x hr with hc | hr2
        · exact Or.inr (Or.inl hc)
        · exact Or.inr (Or.inr hr2)

theorem coalesceGo_gid_mem : ∀ (l : List PotionEffect) (cur : PotionEffect) (g : Nat),
    (g ∈ (coalesceGo cur l).map PotionEffect.gid ↔
      g = cur.gid ∨ g ∈ l.map PotionEffect.gid)
  | [], cur, g => by simp [coalesceGo]
  | b :: rest, cur, g => by
    rw [coalesceGo]
    by_cases hg : cur.gid = b.gid
    · simp only [hg, if_true]
      rw [coalesceGo_gid_mem rest _ g]
      have hcgid : (if b.gold ≤ cur.gold then cur else b).gid = b.gid := by
        split <;> simp [hg]
      simp only [hcgid, List.map_cons, List.mem_cons]
      tauto
    · simp only [hg, if_false, List.map_cons, List.mem_cons]
      rw [coalesceGo_gid_mem rest b g]

theorem coalesceGo_pairwise_lt : ∀ (l : List PotionEffect) (cur : PotionEffect),
    (∀ y ∈ l, cur.gid ≤ y.gid) → l.Pairwise (fun x y => x.gid ≤ y.gid) →
    (coalesceGo cur l).Pairwise (fun x y => x.gid < y.gid)
  | [], cur, _, _ => by simp [coalesceGo]
  | b :: rest, cur, hcur, h => by
    rw [List.pairwise_cons] at h
    obtain ⟨hb, hrest⟩ := h
    rw [coalesceGo]
    by_cases hg : cur.gid = b.gid
    · simp only [hg, if_true]
      apply coalesceGo_pairwise_lt rest _ ?_ hrest
      intro y hy
      have : (if b.gold ≤ cur.gold then cur else b).gid = b.gid := by
        split <;> simp [hg]
      rw [this]
      exact hb y hy
    · simp only [hg, if_false]
      have hltb : cur.gid < b.gid :=
        lt_of_le_of_ne (hcur b (List.mem_cons_self b rest)) hg
      rw [List.pairwise_cons]
      constructor
      · intro x hx
        rcases coalesceGo_mem rest b x hx with hc | hr
        · exact hc ▸ hltb
        · exact lt_of_lt_of_le hltb (hb x hr)
      · exact coalesceGo_pairwise_lt rest b hb hrest

theorem coalesceStrongest_ne_nil (l : List PotionEffect) (h : l ≠ []) :
    coalesceStrongest l ≠ [] := by
  cases l with
  | nil => exact absurd rfl h
  | cons a rest => exact coalesceGo_ne_nil rest a

theorem coalesceStrongest_gid_mem (l : List PotionEffect) (g : Nat) :
    g ∈ (coalesceStrongest l).map PotionEffect.gid ↔ g ∈ l.map PotionEffect.gid := by
  cases l with
  | nil => simp [coalesceStrongest]
  | cons a rest =>
    rw [coalesceStrongest, coalesceGo_gid_mem]
    simp

theorem coalesceStrongest_pairwise_lt (l : List PotionEffect)
    (h : l.Pairwise (fun x y => x.gid ≤ y.gid)) :
    (coalesceStrongest l).Pairwise (fun x y => x.gid < y.gid) := by
  cases l with
  | nil => simp [coalesceStrongest]
  | cons a rest =>
    rw [List.pairwise_cons] at h
    exact coalesceGo_pairwise_lt rest a h.1 h.2

/-- Embeds the pooling step of `Potion::from_ingredients` (src/potion.rs):
all ingredients' effects flattened and stably sorted by global form id
(`Itertools::sorted_by_key` is a stable sort; stable sorts under a total
preorder are extensionally unique, so insertion sort embeds it). -/
def pooledEffects (igs : List Ingredient) : List IngredientEffect :=
  List.insertionSort (fun e1 e2 => e1.gid ≤ e2.gid) (igs.map Ingredient.effects).flatten

/-- The active effects of `Potion::from_ingredients` (src/potion.rs): pooled
effects whose global form id occurs in more than one pooled entry. -/
def activeEffects (igs : List Ingredient) : List IngredientEffect :=
  (pooledEffects igs).filter (fun e => decide (2 ≤ countGid (pooledEffects igs) e.gid))

/-- The effects list of a successful `Potion::from_ingredients`
(src/potion.rs): active effects as `PotionEffect`s, coalesced per id, then
stably sorted by gold value descending. -/
def potionEffectsOf (gv : IngredientEffect → Nat) (igs : List Ingredient) : List PotionEffect :=
  List.insertionSort (fun x y => y.gold ≤ x.gold)
    (coalesceStrongest ((activeEffects igs).map (fun e => ⟨e.gid, gv e⟩)))

/-- Embeds `Potion::from_ingredients` (src/potion.rs).  The `ArrayVec<_, 3>`
argument bounds the list length by 3, carried as a hypothesis in the
theorems below. -/
def from_ingredients (gv : IngredientEffect → Nat) (igs : List Ingredient) :
    Except PotionCraftError Potion :=
  if igs.length < 2 then .error .notEnoughIngredients
  else match igs.find? (fun ig => decide (2 ≤ igs.countP (fun j => j.gid == ig.gid))) with
  | some dup => .error (.duplicateIngredient dup)
  | none =>
    match igs.find? (fun ig => ig.effects.any (fun e => decide (2 ≤ countGid ig.effects e.gid))) with
    | some bad => .error (.invalidIngredient bad)
    | none =>
      if (pooledEffects igs).all (fun e => decide (countGid (pooledEffects igs) e.gid < 2)) then
        .error .noSharedEffects
      else .ok { ingredients := igs, effects := potionEffectsOf gv igs }

theorem from_ingredients_ok {gv : IngredientEffect → Nat} {igs : List Ingredient} {p : Potion}
    (h : from_ingredients gv igs = .ok p) :
    p = { ingredients := igs, effects := potionEffectsOf gv igs } ∧
    ¬((pooledEffects igs).all (fun e => decide (countGid (pooledEffects igs) e.gid < 2)) = true) := by
  unfold from_ingredients at h
  split at h
  · exact absurd h (by simp)
  · split at h
    · exact absurd h (by simp)
    · split at h
      · exact absurd h (by simp)
      · split at h
        · exact absurd h (by simp)
        · rename_i hnoshare
          simp only [Except.ok.injEq] at h
          exact ⟨h.symm, hnoshare⟩

theorem pooledEffects_pairwise (igs : List Ingredient) :
    (pooledEffects igs).Pairwise (fun e1 e2 => e1.gid ≤ e2.gid) := by
  haveI : IsTotal IngredientEffect (fun e1 e2 => e1.gid ≤ e2.gid) :=
    ⟨fun a b => Nat.le_total a.gid b.gid⟩
  haveI : IsTrans IngredientEffect (fun e1 e2 => e1.gid ≤ e2.gid) :=
    ⟨fun _ _ _ => Nat.le_trans⟩
  exact List.sorted_insertionSort _ _

/-- C9: a potion returned as `Ok` by `from_ingredients` has a nonempty
effects list (the `NoSharedEffects` check guarantees some effect id occurs
at least twice in the pool), so `get_primary_effect` — and hence
`get_potion_type` and `get_potion_name` — never hits its unwrap-on-empty
panic. -/
theorem c9_ok_potion_has_primary_effect (gv : IngredientEffect → Nat)
    (igs : List Ingredient) (p : Potion) (hlen : igs.length ≤ 3)
    (h : from_ingredients gv igs = .ok p) :
    p.effects ≠ [] ∧ p.get_primary_effect.isSome = true := by
  obtain ⟨hp, hns⟩ := from_ingredients_ok h
  subst hp
  have hex : ∃ e ∈ pooledEffects igs, 2 ≤ countGid (pooledEffects igs) e.gid := by
    by_contra hall
    push_neg at hall
    refine hns (List.all_eq_true.mpr fun e he => ?_)
    exact decide_eq_true (hall e he)
  obtain ⟨e, he, hc⟩ := hex
  have hact : e ∈ activeEffects igs :=
    List.mem_filter.mpr ⟨he, decide_eq_true hc⟩
  have hne : potionEffectsOf gv igs ≠ [] := by
    unfold potionEffectsOf
    intro hnil
    have hlen0 := congrArg List.length hnil
    rw [(List.perm_insertionSort _ _).length_eq] at hlen0
    refine coalesceStrongest_ne_nil _ ?_ (List.length_eq_zero.mp hlen0)
    simp only [ne_eq, List.map_eq_nil_iff]
    intro hcon
    rw [hcon] at hact
    exact absurd hact (List.not_mem_nil e)
  refine ⟨hne, ?_⟩
  obtain ⟨x, xs, hE⟩ := List.exists_cons_of_ne_nil hne
  simp [Potion.get_primary_effect, hE]

/-- A concrete gold-value assignment for witnesses: each effect is worth its
global id. -/
def gvGid : IngredientEffect → Nat := fun e => e.gid

/-- C9 witness data: two ingredients sharing effect id 7 (with different
durations and magnitudes, as in real data). -/
def c9IngA : Ingredient :=
  { gid := 1, effects := [{ form_id := 7, gid := 7, duration := 10, magnitude := 2 }] }

def c9IngB : Ingredient :=
  { gid := 2, effects := [{ form_id := 7, gid := 7, duration := 20, magnitude := 3 }] }

def c9Pot : Potion :=
  { ingredients := [c9IngA, c9IngB], effects := potionEffectsOf gvGid [c9IngA, c9IngB] }

theorem c9_witness :
    from_ingredients gvGid [c9IngA, c9IngB] = .ok c9Pot ∧
    c9Pot.effects ≠ [] ∧ c9Pot.get_primary_effect.isSome = true := by
  have h : from_ingredients gvGid [c9IngA, c9IngB] = .ok c9Pot := by rfl
  have hc := c9_ok_potion_has_primary_effect gvGid [c9IngA, c9IngB] c9Pot (by decide) h
  exact ⟨h, hc.1, hc.2⟩

/-- C2 counterexample data: two ingredients that share seven effect ids
(100–106); the records differ in duration so the data is well-formed. -/
def c2IngA : Ingredient :=
  { gid := 1, effects :=
      [{ form_id := 100, gid := 100, duration := 1, magnitude := 1 },
       { form_id := 101, gid := 101, duration := 1, magnitude := 1 },
       { form_id := 102, gid := 102, duration := 1, magnitude := 1 },
       { form_id := 103, gid := 103, duration := 1, magnitude := 1 },
       { form_id := 104, gid := 104, duration := 1, magnitude := 1 },
       { form_id := 105, gid := 105, duration := 1, magnitude := 1 },
       { form_id := 106, gid := 106, duration := 1, magnitude := 1 }] }

def c2IngB : Ingredient :=
  { gid := 2, effects :=
      [{ form_id := 100, gid := 100, duration := 2, magnitude := 1 },
       { form_id := 101, gid := 101, duration := 2, magnitude := 1 },
       { form_id := 102, gid := 102, duration := 2, magnitude := 1 },
       { form_id := 103, gid := 103, duration := 2, magnitude := 1 },
       { form_id := 104, gid := 104, duration := 2, magnitude := 1 },
       { form_id := 105, gid := 105, duration := 2, magnitude := 1 },
       { form_id := 106, gid := 106, duration := 2, magnitude := 1 }] }

/-- C2, counterexample: `from_ingredients` succeeds on two ingredients
sharing seven effect ids and returns a potion with seven effects —
there is no cap at 6 anywhere in `Potion::from_ingredients`, refuting the
claim that at most 6 effects survive. -/
theorem c2_counterexample :
    (from_ingredients gvGid [c2IngA, c2IngB]).toOption.map
        (fun p => p.effects.length) = some 7 ∧
    (from_ingredients gvGid [c2IngA, c2IngB]).toOption.map
        (fun p => decide (p.effects.length ≤ 6)) = some false := by
  exact ⟨by rfl, by rfl⟩

/-- C2 (amended): a successful `from_ingredients` keeps one effect per
distinct active effect id — the effect ids of the result are pairwise
distinct, and an id occurs in the result iff it occurs at least twice in
the pooled effects of all ingredients — with no cap at 6, and the potion's
total gold value is the sum of the gold values of all the effects in the
list. -/
theorem c2_gold_value_and_active_effects (gv : IngredientEffect → Nat)
    (igs : List Ingredient) (p : Potion) (hlen : igs.length ≤ 3)
    (h : from_ingredients gv igs = .ok p) :
    p.get_gold_value = (p.effects.map PotionEffect.gold).sum ∧
    (p.effects.map PotionEffect.gid).Nodup ∧
    ∀ g, g ∈ p.effects.map PotionEffect.gid ↔
      2 ≤ countGid ((igs.map Ingredient.effects).flatten) g := by
  obtain ⟨hp, -⟩ := from_ingredients_ok h
  subst hp
  have hact : (activeEffects igs).Pairwise (fun e1 e2 => e1.gid ≤ e2.gid) :=
    (pooledEffects_pairwise igs).filter _
  have hpot : ((activeEffects igs).map
      (fun e => (⟨e.gid, gv e⟩ : PotionEffect))).Pairwise (fun x y => x.gid ≤ y.gid) :=
    hact.map _ (fun _ _ hab => hab)
  have hlt := coalesceStrongest_pairwise_lt _ hpot
  have hcnt : ∀ g, countGid (pooledEffects igs) g =
      countGid ((igs.map Ingredient.effects).flatten) g :=
    fun g => (List.perm_insertionSort _ _).countP_eq _
  refine ⟨rfl, ?_, ?_⟩
  · show ((potionEffectsOf gv igs).map PotionEffect.gid).Nodup
    unfold potionEffectsOf
    refine (List.Perm.nodup_iff ((List.perm_insertionSort _ _).map PotionEffect.gid)).mpr ?_
    exact (hlt.map PotionEffect.gid (fun _ _ hab => hab)).imp (fun hab => Nat.ne_of_lt hab)
  · intro g
    show g ∈ (potionEffectsOf gv igs).map PotionEffect.gid ↔ _
    unfold potionEffectsOf
    rw [List.Perm.mem_iff ((List.perm_insertionSort _ _).map PotionEffect.gid)]
    rw [coalesceStrongest_gid_mem, List.map_map]
    have hmapeq : (PotionEffect.gid ∘ fun e : IngredientEffect => (⟨e.gid, gv e⟩ : PotionEffect)) =
        fun e : IngredientEffect => e.gid := rfl
    rw [hmapeq]
    constructor
    · intro hmem
      rw [List.mem_map] at hmem
      obtain ⟨e, he, rfl⟩ := hmem
      rw [activeEffects, List.mem_filter] at he
      have h2 := of_decide_eq_true he.2
      rwa [hcnt e.gid] at h2
    · intro hg
      have hpos : 0 < (pooledEffects igs).countP (fun e => e.gid == g) := by
        have h2 : 2 ≤ countGid (pooledEffects igs) g := by rw [hcnt g]; exact hg
        unfold countGid at h2
        omega
      obtain ⟨e, he, heg⟩ := List.countP_pos_iff.mp hpos
      have heg' : e.gid = g := by simpa using heg
      refine List.mem_map.mpr ⟨e, ?_, heg'⟩
      rw [activeEffects, List.mem_filter]
      refine ⟨he, decide_eq_true ?_⟩
      rw [heg', hcnt g]
      exact hg

def c2Pot : Potion :=
  { ingredients := [c2IngA, c2IngB], effects := potionEffectsOf gvGid [c2IngA, c2IngB] }

theorem c2_witness :
    from_ingredients gvGid [c2IngA, c2IngB] = .ok c2Pot ∧
    c2Pot.get_gold_value = (c2Pot.effects.map PotionEffect.gold).sum ∧
    (c2Pot.effects.map PotionEffect.gid).Nodup := by
  have h : from_ingredients gvGid [c2IngA, c2IngB] = .ok c2Pot := by rfl
  have hc := c2_gold_value_and_active_effects gvGid [c2IngA, c2IngB] c2Pot (by decide) h
  exact ⟨h, hc.1, hc.2.1⟩

/-- Embeds `Itertools::merge_by` as used by `PotionsList::get_potions`
(src/potions_list.rs): while the predicate holds of the two heads the
element is taken from the first list, else from the second. -/
def merge_by (p : Potion → Potion → Bool) : List Potion → List Potion → List Potion
  | [], ys => ys
  | x :: xs, [] => x :: xs
  | x :: xs, y :: ys =>
    if p x y then x :: merge_by p xs (y :: ys) else y :: merge_by p (x :: xs) ys
termination_by xs ys => xs.length + ys.length

/-- Embeds `PotionsList::get_potions` (src/potions_list.rs):
`potions_3.iter().merge_by(potions_2.iter(), |a, b| a.gold_value > b.gold_value)`. -/
def PotionsList.get_potions (potions_2 potions_3 : List Potion) : List Potion :=
  merge_by (fun a b => decide (b.get_gold_value < a.get_gold_value)) potions_3 potions_2

theorem merge_by_perm (p : Potion → Potion → Bool) :
    ∀ xs ys, (merge_by p xs ys).Perm (xs ++ ys)
  | [], ys => by simp [merge_by]
  | x :: xs, [] => by simp [merge_by]
  | x :: xs, y :: ys => by
    rw [merge_by]
    split
    · exact (merge_by_perm p xs (y :: ys)).cons x
    · exact ((merge_by_perm p (x :: xs) ys).cons y).trans List.perm_middle.symm
termination_by xs ys => xs.length + ys.length

theorem merge_by_sorted :
    ∀ (xs ys : List Potion),
    xs.Pairwise (fun a b => b.get_gold_value ≤ a.get_gold_value) →
    ys.Pairwise (fun a b => b.get_gold_value ≤ a.get_gold_value) →
    (merge_by (fun a b => decide (b.get_gold_value < a.get_gold_value)) xs ys).Pairwise
      (fun a b => b.get_gold_value ≤ a.get_gold_value)
  | [], ys => fun _ hy => by simpa [merge_by] using hy
  | x :: xs, [] => fun hx _ => by simpa [merge_by] using hx
  | x :: xs, y :: ys => fun hx hy => by
    rw [List.pairwise_cons] at hx hy
    obtain ⟨hxr, hxs⟩ := hx
    obtain ⟨hyr, hys⟩ := hy
    rw [merge_by]
    split
    · rename_i hcmp
      rw [decide_eq_true_eq] at hcmp
      rw [List.pairwise_cons]
      constructor
      · intro z hz
        rcases List.mem_append.mp ((List.Perm.mem_iff (merge_by_perm _ xs (y :: ys))).mp hz)
          with hzx | hzy
        · exact hxr z hzx
        · rcases List.mem_cons.mp hzy with rfl | hzys
          · exact Nat.le_of_lt hcmp
          · exact Nat.le_trans (hyr z hzys) (Nat.le_of_lt hcmp)
      · exact merge_by_sorted xs (y :: ys) hxs (List.pairwise_cons.mpr ⟨hyr, hys⟩)
    · rename_i hcmp
      rw [decide_eq_true_eq] at hcmp
      push_neg at hcmp
      rw [List.pairwise_cons]
      constructor
      · intro z hz
        rcases List.mem_append.mp ((List.Perm.mem_iff (merge_by_perm _ (x :: xs) ys)).mp hz)
          with hzx | hzy
        · rcases List.mem_cons.mp hzx with rfl | hzxs
          · exact hcmp
          · exact Nat.le_trans (hxr z hzxs) hcmp
        · exact hyr z hzy
      · exact merge_by_sorted (x :: xs) ys (List.pairwise_cons.mpr ⟨hxr, hxs⟩) hys
termination_by xs ys => xs.length + ys.length

/-- A potion with one placeholder ingredient and a single effect of the
given gold value. -/
def mkPot (n gold : Nat) : Potion :=
  { ingredients := [{ gid := n, effects := [] }], effects := [{ gid := 0, gold := gold }] }

/-- C5, counterexample: on a tie (both heads worth 50) `get_potions` takes
from the 2-ingredient list first, because `merge_by` takes from `potions_3`
only while `a.gold_value > b.gold_value` is strict — refuting the claim
that ties favor the 3-ingredient list. -/
theorem c5_counterexample :
    PotionsList.get_potions [mkPot 1 50] [mkPot 2 50] = [mkPot 1 50, mkPot 2 50] ∧
    (mkPot 1 50).get_gold_value = (mkPot 2 50).get_gold_value ∧
    mkPot 1 50 ≠ mkPot 2 50 := by
  refine ⟨?_, by rfl, by decide⟩
  simp [PotionsList.get_potions, merge_by, Potion.get_gold_value, mkPot]

/-- C5 (amended): for score-descending inputs, `get_potions` yields all
potions of both lists in descending score order, taking from the
3-ingredient sequence only while its head's score strictly exceeds the
2-ingredient head's score — so ties favor the 2-ingredient list — and the
claim's concrete example [50, 30] merged with [40, 20] gives
[50, 40, 30, 20]. -/
theorem c5_get_potions_sorted_merge (p2s p3s : List Potion)
    (h2 : p2s.Pairwise (fun a b => b.get_gold_value ≤ a.get_gold_value))
    (h3 : p3s.Pairwise (fun a b => b.get_gold_value ≤ a.get_gold_value)) :
    (PotionsList.get_potions p2s p3s).Perm (p3s ++ p2s) ∧
    (PotionsList.get_potions p2s p3s).Pairwise
      (fun a b => b.get_gold_value ≤ a.get_gold_value) ∧
    PotionsList.get_potions [mkPot 1 50, mkPot 2 30] [mkPot 3 40, mkPot 4 20] =
      [mkPot 1 50, mkPot 3 40, mkPot 2 30, mkPot 4 20] := by
  refine ⟨merge_by_perm _ p3s p2s, merge_by_sorted p3s p2s h3 h2, ?_⟩
  simp [PotionsList.get_potions, merge_by, Potion.get_gold_value, mkPot]

theorem c5_witness :
    ([mkPot 1 50, mkPot 2 30].Pairwise
      (fun a b : Potion => b.get_gold_value ≤ a.get_gold_value)) ∧
    ([mkPot 3 40, mkPot 4 20].Pairwise
      (fun a b : Potion => b.get_gold_value ≤ a.get_gold_value)) ∧
    (PotionsList.get_potions [mkPot 1 50, mkPot 2 30] [mkPot 3 40, mkPot 4 20]).Perm
      ([mkPot 3 40, mkPot 4 20] ++ [mkPot 1 50, mkPot 2 30]) := by
  have h2 : [mkPot 1 50, mkPot 2 30].Pairwise
      (fun a b : Potion => b.get_gold_value ≤ a.get_gold_value) := by decide
  have h3 : [mkPot 3 40, mkPot 4 20].Pairwise
      (fun a b : Potion => b.get_gold_value ≤ a.get_gold_value) := by decide
  exact ⟨h2, h3, (c5_get_potions_sorted_merge _ _ h2 h3).1⟩

/-- Embeds `GameData` (src/game_data.rs) as far as `validate` and
`purge_invalid` observe it: the `ingredients` map as its list of values
(map keys are the ingredients' global form ids) and the `magic_effects` map
as its list of keys — `validate` only calls `contains_key` on it. -/
structure GameData where
  ingredients : List Ingredient
  magicEffectIds : List Nat
deriving DecidableEq, Repr

/-- The dangling references of one ingredient — the `UnknownFormIdError`s
collected per ingredient by `GameData::validate` (src/game_data.rs). -/
def unknownEffectIds (gd : GameData) (ing : Ingredient) : List Nat :=
  (ing.effects.filter (fun e => ! gd.magicEffectIds.contains e.gid)).map IngredientEffect.gid

/-- Embeds `GameData::validate` (src/game_data.rs): one
`ReferencesUnknownMagicEffects` entry per ingredient with at least one
dangling effect reference; `Ok(())` is the empty error list. -/
def GameData.validate (gd : GameData) : List (Ingredient × List Nat) :=
  gd.ingredients.filterMap (fun ing =>
    if (unknownEffectIds gd ing).isEmpty then none else some (ing, unknownEffectIds gd ing))

/-- Embeds `GameData::purge_invalid` (src/game_data.rs): return immediately
when `validate` is clean, else remove every offending ingredient (keyed by
its global form id) from the ingredients map. -/
def GameData.purge_invalid (gd : GameData) : GameData :=
  if gd.validate.isEmpty then gd
  else
    { gd with ingredients := gd.ingredients.filter (fun ing =>
        ! (gd.validate.map (fun e => e.1.gid)).contains ing.gid) }

theorem unknownEffectIds_update (gd : GameData) (l : List Ingredient) (ing : Ingredient) :
    unknownEffectIds { gd with ingredients := l } ing = unknownEffectIds gd ing := rfl

/-- C7: after `purge_invalid`, every surviving ingredient's effect ids all
occur among the magic-effect keys — `validate` returns `Ok` — and a second
`purge_invalid` is a no-op. -/
theorem c7_purge_invalid_validates_and_idempotent (gd : GameData) :
    (gd.purge_invalid).validate = [] ∧ gd.purge_invalid.purge_invalid = gd.purge_invalid := by
  have hval : (gd.purge_invalid).validate = [] := by
    unfold GameData.purge_invalid
    split
    · rename_i hempty
      exact List.isEmpty_iff.mp hempty
    · rw [GameData.validate]
      rw [List.filterMap_eq_nil_iff]
      intro ing hing
      rw [List.mem_filter] at hing
      obtain ⟨hmem, hpred⟩ := hing
      have hnotin : ing.gid ∉ gd.validate.map (fun e => e.1.gid) := by
        simpa using hpred
      by_cases hu : (unknownEffectIds gd ing).isEmpty
      · simp [unknownEffectIds_update, hu]
      · exfalso
        apply hnotin
        refine List.mem_map.mpr ⟨(ing, unknownEffectIds gd ing), ?_, rfl⟩
        rw [GameData.validate, List.mem_filterMap]
        exact ⟨ing, hmem, by simp [hu]⟩
  refine ⟨hval, ?_⟩
  conv_lhs => rw [GameData.purge_invalid]
  simp [hval]

/-- Mod/plugin file names as byte strings (`str::bytes()`). -/
abbrev ModName := List Nat

/-- `u8::to_ascii_lowercase`. -/
def toLowerByte (b : Nat) : Nat := if 65 ≤ b ∧ b ≤ 90 then b + 32 else b

/-- Embeds `cmp_ignore_case_ascii` (src/load_order.rs): `zip_longest` over
the two byte sequences; the first non-equal lowercased byte comparison
wins, a longer left (right) string compares greater (less). -/
def cmpIgnoreCaseAscii : ModName → ModName → Ordering
  | [], [] => .eq
  | _ :: _, [] => .gt
  | [], _ :: _ => .lt
  | a :: restA, b :: restB =>
    match compare (toLowerByte a) (toLowerByte b) with
    | .eq => cmpIgnoreCaseAscii restA restB
    | o => o

/-- Embeds `LoadOrder::get_form_id_prefix` (src/load_order.rs): the index
of the first case-insensitive match of `modName` in `masters`. -/
def get_form_id_pfx (masters : List ModName) (modName : ModName) : Option Nat :=
  masters.findIdx? (fun name => cmpIgnoreCaseAscii name modName == .eq)

/-- The two failure modes of the `globalize_form_id` closure
(src/plugin_parser/mod.rs). -/
inductive GlobalizeError where
  | unresolvedMasterReference
  | sourceNotInLoadOrder
deriving DecidableEq, Repr

/-- Embeds the `globalize_form_id` closure of `parse_plugin`
(src/plugin_parser/mod.rs) literally as written there: resolve the
owning-source slot `form_id >> 24` against the plugin's master list, take
`record_id = form_id & 0x00FFFFFF`, look the owner up in the load order,
then mask `load_order_index & 0xFF000000` and return the packed
`GlobalFormId::new(load_order_index | record_id)` (a single u32 in that
version of the code). -/
def globalize_form_id (masters : List ModName) (pluginName : ModName)
    (loadOrderMasters : List ModName) (formId : Nat) : Except GlobalizeError Nat :=
  let modId := formId / 16777216
  let modName? : Except GlobalizeError ModName :=
    if modId = masters.length then .ok pluginName
    else if modId < masters.length then .ok (masters.getD modId [])
    else .error .unresolvedMasterReference
  match modName? with
  | .error e => .error e
  | .ok modName =>
    let recordId := formId % 16777216
    match get_form_id_pfx loadOrderMasters modName with
    | none => .error .sourceNotInLoadOrder
    | some loadOrderIndex =>
      .ok (Nat.lor (Nat.land loadOrderIndex 0xFF000000) recordId)

/-- Modelled from the spec: "The final GlobalFormId is
`{global_index_of_owner, local_record_id}` where local_record_id is the low
bits of the raw identifier."  This covers the GlobalFormId construction,
which src/plugin_parser/mod.rs garbles (it masks the plain index with
`0xFF000000` and packs a single u32); the slot resolution is the same as in
`globalize_form_id`. -/
def globalize_form_id_specModel (masters : List ModName) (pluginName : ModName)
    (loadOrderMasters : List ModName) (formId : Nat) :
    Except GlobalizeError (Nat × Nat) :=
  let modId := formId / 16777216
  let modName? : Except GlobalizeError ModName :=
    if modId = masters.length then .ok pluginName
    else if modId < masters.length then .ok (masters.getD modId [])
    else .error .unresolvedMasterReference
  match modName? with
  | .error e => .error e
  | .ok modName =>
    let recordId := formId % 16777216
    match get_form_id_pfx loadOrderMasters modName with
    | none => .error .sourceNotInLoadOrder
    | some loadOrderIndex => .ok (loadOrderIndex, recordId)

/-- "a.esp" as bytes. -/
def aEsp : ModName := [97, 46, 101, 115, 112]

/-- "b.esp" as bytes. -/
def bEsp : ModName := [98, 46, 101, 115, 112]

/-- "c.esp" as bytes. -/
def cEsp : ModName := [99, 46, 101, 115, 112]

/-- C1: the slot resolution and its two failure modes behave as claimed,
but the returned id does not carry the owner's load-order index: for the
plugin `b.esp` with master list `[a.esp]` in load order `[a.esp, b.esp]`,
the raw id `0x0100ABCD` (owner = the plugin itself, global index 1)
globalizes to the bare `0xABCD` — identical to the result for
`0x0000ABCD`, whose owner `a.esp` has global index 0 — because the code
masks the index with `0xFF000000` (always 0 for a plain index) instead of
placing it in its own field as the spec (and form_id.rs's two-field
`GlobalFormId`) requires. -/
theorem c1_globalize_form_id_drops_index :
    globalize_form_id [aEsp] bEsp [aEsp, bEsp] 0x0100ABCD = .ok 0xABCD ∧
    globalize_form_id [aEsp] bEsp [aEsp, bEsp] 0x0000ABCD = .ok 0xABCD ∧
    globalize_form_id_specModel [aEsp] bEsp [aEsp, bEsp] 0x0100ABCD = .ok (1, 0xABCD) ∧
    globalize_form_id_specModel [aEsp] bEsp [aEsp, bEsp] 0x0000ABCD = .ok (0, 0xABCD) ∧
    globalize_form_id [aEsp] bEsp [aEsp, bEsp] 0x02000001 =
      .error .unresolvedMasterReference ∧
    globalize_form_id [aEsp] cEsp [aEsp, bEsp] 0x01000001 =
      .error .sourceNotInLoadOrder := by
  exact ⟨rfl, rfl, rfl, rfl, rfl, rfl⟩

/-- `AHashMap` insert while collecting `used_entries_with_old_indexes`
(src/load_order.rs): overwrite the entry with this key if present, else add
one.  The map is unordered, so the entry's position is unobservable. -/
def insertEntry (m : List (ModName × Nat)) (k : ModName) (v : Nat) : List (ModName × Nat) :=
  (m.filter (fun q => ! (q.1 == k))) ++ [(k, v)]

/-- `used_indexes.sorted_unstable().dedup()` (src/load_order.rs): on plain
integers an unstable sort is extensionally the sort, and `dedup` of a
sorted list removes exactly the duplicates. -/
def sortedDedup (used : List Nat) : List Nat :=
  (used.insertionSort (· ≤ ·)).dedup

/-- The `used_entries_with_old_indexes` map of `LoadOrder::drain_unused`
(src/load_order.rs): sorted, deduped indexes mapped to
`(name_at_index, index)` and collected into a name-keyed map.
`self.get(index).unwrap()` is modelled with `getD`; the theorems restrict
`used` to in-range indexes exactly as the claim does. -/
def usedEntries (masters : List ModName) (used : List Nat) : List (ModName × Nat) :=
  (sortedDedup used).foldl (fun m i => insertEntry m (masters.getD i []) i) []

/-- `AHashMap` lookup on the returned remap (keys are distinct old indexes,
so order is irrelevant). -/
def lookupIdx (m : List (Nat × Nat)) (k : Nat) : Option Nat :=
  (m.find? (fun q => q.1 == k)).map (fun q => q.2)

/-- The post-`drain_filter` masters list of `drain_unused`
(src/load_order.rs): entries whose name is a key of the used-entries map
are retained (exact string equality, as `contains_key` uses). -/
def keptMasters (masters : List ModName) (used : List Nat) : List ModName :=
  masters.filter (fun e => (usedEntries masters used).any (fun q => q.1 == e))

/-- Embeds `LoadOrder::drain_unused` (src/load_order.rs): build the
used-entries map, `drain_filter` away every master whose name is not a key,
return `None` if nothing was removed, else the old-index → new-index map
computed by re-resolving each surviving name through
`get_form_id_prefix`. -/
def drain_unused (masters : List ModName) (used : List Nat) :
    List ModName × Option (List (Nat × Nat)) :=
  if masters.length - (keptMasters masters used).length = 0 then
    (keptMasters masters used, none)
  else
    (keptMasters masters used,
      some ((usedEntries masters used).map
        (fun q => (q.2, (get_form_id_pfx (keptMasters masters used) q.1).getD 0))))

/-- "A.esp" (capital A) as bytes. -/
def capAEsp : ModName := [65, 46, 101, 115, 112]

/-- C6, counterexample: load order ["b.esp", "a.esp", "A.esp"] (all names
distinct as strings) with used indexes {1, 2}.  "b.esp" is removed, the
kept list is ["a.esp", "A.esp"], but the returned remap sends both old
index 1 and old index 2 to 0 — because the new position is re-resolved
case-insensitively, so "A.esp" (new position 1) resolves to "a.esp"'s
position 0.  The remap is neither a bijection nor the surviving names'
new positions. -/
theorem c6_counterexample :
    (drain_unused [bEsp, aEsp, capAEsp] [1, 2]).1 = [aEsp, capAEsp] ∧
    ((drain_unused [bEsp, aEsp, capAEsp] [1, 2]).2.map
      (fun rm => (lookupIdx rm 1, lookupIdx rm 2))) = some (some 0, some 0) := by
  exact ⟨by decide, by decide⟩

theorem cmpIC_eq_iff : ∀ (a b : ModName),
    (cmpIgnoreCaseAscii a b = .eq ↔ a.map toLowerByte = b.map toLowerByte)
  | [], [] => by simp [cmpIgnoreCaseAscii]
  | _ :: _, [] => by simp [cmpIgnoreCaseAscii]
  | [], _ :: _ => by simp [cmpIgnoreCaseAscii]
  | a :: restA, b :: restB => by
    rw [cmpIgnoreCaseAscii]
    have hiff := @Nat.compare_eq_eq (toLowerByte a) (toLowerByte b)
    cases hc : compare (toLowerByte a) (toLowerByte b) with
    | eq =>
      have hab := hiff.mp hc
      simp [cmpIC_eq_iff restA restB, hab]
    | lt =>
      have hab : toLowerByte a ≠ toLowerByte b := by
        intro hcon
        rw [hiff.mpr hcon] at hc
        cases hc
      simp [hab]
    | gt =>
      have hab : toLowerByte a ≠ toLowerByte b := by
        intro hcon
        rw [hiff.mpr hcon] at hc
        cases hc
      simp [hab]

theorem cmpIC_refl (a : ModName) : cmpIgnoreCaseAscii a a = .eq :=
  (cmpIC_eq_iff a a).mpr rfl

theorem foldl_insertEntry_fresh (f : Nat → ModName) :
    ∀ (is_ : List Nat) (acc : List (ModName × Nat)),
    (∀ i ∈ is_, ∀ q ∈ acc, q.1 ≠ f i) →
    is_.Pairwise (fun i j => f i ≠ f j) →
    is_.foldl (fun m i => insertEntry m (f i) i) acc =
      acc ++ is_.map (fun i => (f i, i))
  | [], acc, _, _ => by simp
  | i :: rest, acc, hfresh, hpair => by
    rw [List.foldl_cons]
    have hins : insertEntry acc (f i) i = acc ++ [(f i, i)] := by
      unfold insertEntry
      congr 1
      refine List.filter_eq_self.mpr fun q hq => ?_
      simp [hfresh i (List.mem_cons_self i rest) q hq]
    rw [hins]
    rw [List.pairwise_cons] at hpair
    rw [foldl_insertEntry_fresh f rest (acc ++ [(f i, i)]) ?_ hpair.2]
    · simp
    · intro j hj q hq
      rcases List.mem_append.mp hq with hqa | hqi
      · exact hfresh j (List.mem_cons_of_mem i hj) q hqa
      · have hq2 : q = (f i, i) := by simpa using hqi
        subst hq2
        exact hpair.1 j hj

theorem lookupIdx_map_graph (g : Nat → Nat) :
    ∀ (ds : List Nat) (i : Nat),
    lookupIdx (ds.map (fun j => (j, g j))) i = if i ∈ ds then some (g i) else none
  | [], i => by simp [lookupIdx]
  | j :: rest, i => by
    unfold lookupIdx
    rw [List.map_cons]
    by_cases hji : j = i
    · subst hji
      rw [List.find?_cons_of_pos _ (by simp)]
      simp
    · rw [List.find?_cons_of_neg _ (by simpa using hji)]
      have hrec := lookupIdx_map_graph g rest i
      unfold lookupIdx at hrec
      rw [hrec]
      by_cases hr : i ∈ rest
      · simp [hr]
      · simp [hr, Ne.symm hji]

theorem findCI_pos : ∀ (ns : List ModName),
    ns.Pairwise (fun x y => cmpIgnoreCaseAscii x y ≠ .eq) →
    ∀ (n : Nat) (x : ModName), ns.get? n = some x → get_form_id_pfx ns x = some n
  | [], _, n, x => by simp
  | y :: rest, hpair, n, x => by
    rw [List.pairwise_cons] at hpair
    cases n with
    | zero =>
      intro hx
      rw [List.get?_cons_zero, Option.some.injEq] at hx
      subst hx
      unfold get_form_id_pfx
      rw [List.findIdx?_cons]
      have hself : (cmpIgnoreCaseAscii y y == Ordering.eq) = true := by
        rw [cmpIC_refl]
        rfl
      rw [hself]
      simp
    | succ n =>
      intro hx
      rw [List.get?_cons_succ] at hx
      have hxmem : x ∈ rest := List.get?_mem hx
      have hyx : (cmpIgnoreCaseAscii y x == Ordering.eq) = false := by
        cases hc : cmpIgnoreCaseAscii y x
        · rfl
        · exact absurd hc (hpair.1 x hxmem)
        · rfl
      unfold get_form_id_pfx
      rw [List.findIdx?_cons, hyx]
      have hrec := findCI_pos rest hpair.2 n x hx
      unfold get_form_id_pfx at hrec
      rw [List.findIdx?_succ, hrec]
      simp

theorem map_getD_sublist (masters : List ModName) (ds : List Nat)
    (hlt : ds.Pairwise (· < ·)) (hin : ∀ i ∈ ds, i < masters.length) :
    List.Sublist (ds.map (fun i => masters.getD i [])) masters := by
  have hmono : StrictMono
      (fun ix => if h : ix < ds.length then ds.get ⟨ix, h⟩ else masters.length + ix) := by
    intro a b hab
    dsimp only
    rcases Nat.lt_or_ge a ds.length with ha | ha
    · rcases Nat.lt_or_ge b ds.length with hb | hb
      · rw [dif_pos ha, dif_pos hb]
        exact List.pairwise_iff_get.mp hlt ⟨a, ha⟩ ⟨b, hb⟩ hab
      · rw [dif_pos ha, dif_neg (Nat.not_lt.mpr hb)]
        exact Nat.lt_of_lt_of_le (hin _ (List.get_mem ds a ha)) (Nat.le_add_right _ _)
    · rw [dif_neg (Nat.not_lt.mpr ha), dif_neg (Nat.not_lt.mpr (Nat.le_trans ha (Nat.le_of_lt hab)))]
      exact Nat.add_lt_add_left hab _
  apply List.sublist_of_orderEmbedding_get?_eq (OrderEmbedding.ofStrictMono _ hmono)
  intro ix
  rcases Nat.lt_or_ge ix ds.length with h | h
  · simp only [OrderEmbedding.coe_ofStrictMono]
    rw [dif_pos h]
    have hi : ds.get ⟨ix, h⟩ < masters.length := hin _ (List.get_mem ds ix h)
    rw [List.get?_map, List.get?_eq_get h]
    rw [List.get?_eq_get hi]
    show some (masters.getD (ds[ix]) []) = some masters[ds[ix]]
    rw [List.getD_eq_getElem?_getD, List.getElem?_eq_getElem (by simpa using hi)]
    rfl
  · simp only [OrderEmbedding.coe_ofStrictMono]
    rw [dif_neg (Nat.not_lt.mpr h)]
    rw [List.get?_eq_none.mpr (by simpa using h), List.get?_eq_none.mpr (Nat.le_add_right _ _)]

theorem filter_contains_of_sublist :
    ∀ {l ns : List ModName}, List.Sublist ns l → l.Nodup →
    l.filter (fun e => ns.any (fun q => q == e)) = ns := by
  intro l ns hs
  induction hs with
  | slnil => intro _; rfl
  | cons a hsub ih =>
    intro hnd
    rename_i ns1 l1
    rw [List.nodup_cons] at hnd
    rw [List.filter_cons]
    have hpred : (ns1.any (fun q => q == a)) = false := by
      rw [List.any_eq_false]
      intro q hq
      have : q ∈ l1 := hsub.subset hq
      intro hqa
      exact hnd.1 ((eq_of_beq hqa) ▸ this)
    rw [hpred]
    simp only [Bool.false_eq_true, if_false]
    exact ih hnd.2
  | cons₂ a hsub ih =>
    intro hnd
    rename_i ns1 l1
    rw [List.nodup_cons] at hnd
    rw [List.filter_cons]
    have hpred : ((a :: ns1).any (fun q => q == a)) = true := by
      simp
    rw [hpred]
    simp only [if_true]
    congr 1
    rw [List.filter_congr (fun e he => ?_)]
    · exact ih hnd.2
    · show ((a :: ns1).any (fun q => q == e)) = (ns1.any (fun q => q == e))
      rw [List.any_cons]
      have : (a == e) = false := by
        simp only [beq_eq_false_iff_ne, ne_eq]
        intro hae
        exact hnd.1 (hae ▸ he)
      rw [this]
      simp

theorem any_pair_key (f : Nat → ModName) (ds : List Nat) (e : ModName) :
    ((ds.map (fun i => (f i, i))).any (fun q => q.1 == e)) =
      ((ds.map f).any (fun q => q == e)) := by
  induction ds with
  | nil => rfl
  | cons j rest ih => simp only [List.map_cons, List.any_cons, ih]

/-- C6 (amended): for a LoadOrder whose entries are pairwise distinct under
the ASCII case-insensitive comparison actually used for lookups, and any
in-range used-index set, `drain_unused` removes exactly the entries whose
index is unused, returns `None` iff nothing was removed, and otherwise the
remap is defined exactly on the used indexes, sends each one to its
surviving name's new position, and is a bijection onto the new indexes. -/
theorem c6_drain_unused_exact (masters : List ModName) (used : List Nat)
    (hnd : masters.Pairwise (fun x y => cmpIgnoreCaseAscii x y ≠ .eq))
    (hrange : ∀ i ∈ used, i < masters.length) :
    (∀ i ∈ used, masters.getD i [] ∈ (drain_unused masters used).1) ∧
    (∀ j, j < masters.length → j ∉ used →
      masters.getD j [] ∉ (drain_unused masters used).1) ∧
    ((drain_unused masters used).2 = none ↔ ∀ j, j < masters.length → j ∈ used) ∧
    (∀ rm, (drain_unused masters used).2 = some rm →
      (∀ i ∈ used, ∃ n, lookupIdx rm i = some n ∧
        (drain_unused masters used).1.get? n = some (masters.getD i [])) ∧
      (∀ i n, lookupIdx rm i = some n → i ∈ used) ∧
      (∀ i1 i2 n, lookupIdx rm i1 = some n → lookupIdx rm i2 = some n → i1 = i2) ∧
      (∀ n, n < (drain_unused masters used).1.length → ∃ i, lookupIdx rm i = some n)) := by
  classical
  set f : Nat → ModName := fun i => masters.getD i [] with hfdef
  set ds : List Nat := sortedDedup used with hdsdef
  have hdsmem : ∀ i, i ∈ ds ↔ i ∈ used := by
    intro i
    rw [hdsdef]
    unfold sortedDedup
    rw [List.mem_dedup]
    exact (List.perm_insertionSort _ _).mem_iff
  have hdsnd : ds.Nodup := List.nodup_dedup _
  have hdsle : ds.Pairwise (· ≤ ·) := by
    apply List.Pairwise.sublist (List.dedup_sublist _)
    exact List.sorted_insertionSort _ _
  have hdslt : ds.Pairwise (· < ·) := by
    have hand := List.pairwise_and_iff.mpr ⟨hdsle, hdsnd⟩
    exact hand.imp (fun h => Nat.lt_of_le_of_ne h.1 h.2)
  have hdsrange : ∀ i ∈ ds, i < masters.length := fun i hi => hrange i ((hdsmem i).mp hi)
  have hfget : ∀ i (h : i < masters.length), f i = masters[i] := by
    intro i h
    rw [hfdef]
    show masters.getD i [] = masters[i]
    rw [List.getD_eq_getElem?_getD, List.getElem?_eq_getElem h]
    rfl
  have hCI : ∀ i j, i < masters.length → j < masters.length → i ≠ j →
      cmpIgnoreCaseAscii (f i) (f j) ≠ .eq := by
    intro i j hi hj hij
    rcases Nat.lt_or_ge i j with h | h
    · have hp := List.pairwise_iff_getElem.mp hnd i j hi hj h
      rw [hfget i hi, hfget j hj]
      exact hp
    · have hji : j < i := Nat.lt_of_le_of_ne h (Ne.symm hij)
      have hp := List.pairwise_iff_getElem.mp hnd j i hj hi hji
      rw [hfget i hi, hfget j hj]
      intro hcon
      apply hp
      rw [cmpIC_eq_iff] at hcon ⊢
      exact hcon.symm
  have hfinj : ∀ i j, i < masters.length → j < masters.length → f i = f j → i = j := by
    intro i j hi hj hfe
    by_contra hij
    exact hCI i j hi hj hij (by rw [hfe]; exact cmpIC_refl _)
  have hdsCI : ds.Pairwise (fun i j => cmpIgnoreCaseAscii (f i) (f j) ≠ .eq) := by
    rw [List.pairwise_iff_getElem]
    intro a b ha hb hab
    have hlt := List.pairwise_iff_getElem.mp hdslt a b ha hb hab
    exact hCI ds[a] ds[b] (hdsrange _ (List.getElem_mem ha)) (hdsrange _ (List.getElem_mem hb))
      (Nat.ne_of_lt hlt)
  have hpairf : ds.Pairwise (fun i j => f i ≠ f j) := by
    refine hdsCI.imp ?_
    intro a b h hfe
    exact h (by rw [hfe]; exact cmpIC_refl _)
  have huem : usedEntries masters used = ds.map (fun i => (f i, i)) := by
    unfold usedEntries
    rw [← hdsdef]
    rw [foldl_insertEntry_fresh f ds [] (fun i _ q hq => absurd hq (List.not_mem_nil q)) hpairf]
    rfl
  have hsub : List.Sublist (ds.map f) masters := map_getD_sublist masters ds hdslt hdsrange
  have hmnd : masters.Nodup := by
    refine hnd.imp ?_
    intro a b hcab hab
    exact hcab (by rw [hab]; exact cmpIC_refl _)
  have hkept : keptMasters masters used = ds.map f := by
    unfold keptMasters
    rw [huem]
    rw [List.filter_congr (fun e _ => ?_)]
    · exact filter_contains_of_sublist hsub hmnd
    · exact any_pair_key f ds e
  have hdrain1 : (drain_unused masters used).1 = ds.map f := by
    unfold drain_unused
    split <;> exact hkept
  have hforall : ((drain_unused masters used).2 = none) ↔
      (∀ j, j < masters.length → j ∈ used) := by
    have hlenle : (keptMasters masters used).length ≤ masters.length := by
      unfold keptMasters
      exact List.length_filter_le _ _
    have hn : ((drain_unused masters used).2 = none) ↔
        masters.length - (keptMasters masters used).length = 0 := by
      unfold drain_unused
      split
      · rename_i hc
        simp [hc]
      · rename_i hc
        simp [hc]
    rw [hn, Nat.sub_eq_zero_iff_le]
    constructor
    · intro hle j hj
      have heq : keptMasters masters used = masters := by
        unfold keptMasters
        exact (List.filter_sublist _).eq_of_length (Nat.le_antisymm hlenle hle)
      unfold keptMasters at heq
      have hall := List.filter_eq_self.mp heq
      have hj2 := hall masters[j] (List.getElem_mem hj)
      rw [huem] at hj2
      rw [List.any_eq_true] at hj2
      obtain ⟨q, hq, hbeq⟩ := hj2
      obtain ⟨i, hids, rfl⟩ := List.mem_map.mp hq
      have : f i = masters[j] := eq_of_beq hbeq
      have hieq : i = j := hfinj i j (hdsrange i hids) hj (by rw [this, hfget j hj])

      exact (hdsmem j).mp (hieq ▸ hids)
    · intro hall
      have heq : keptMasters masters used = masters := by
        unfold keptMasters
        apply List.filter_eq_self.mpr
        intro e he
        obtain ⟨j, hj, rfl⟩ := List.mem_iff_getElem.mp he
        rw [huem, List.any_eq_true]
        refine ⟨(f j, j), List.mem_map.mpr ⟨j, (hdsmem j).mpr (hall j hj), rfl⟩, ?_⟩
        show (f j == masters[j]) = true
        rw [hfget j hj]
        exact beq_self_eq_true _
      rw [heq]
  refine ⟨?_, ?_, hforall, ?_⟩
  · intro i hi
    rw [hdrain1]
    exact List.mem_map.mpr ⟨i, (hdsmem i).mpr hi, rfl⟩
  · intro j hj hju
    rw [hdrain1]
    intro hmem
    obtain ⟨i, hids, hfe⟩ := List.mem_map.mp hmem
    have : i = j := hfinj i j (hdsrange i hids) hj hfe
    exact hju ((hdsmem j).mp (this ▸ hids))
  · intro rm hrm
    have hrm_eq : rm = ds.map
        (fun i => (i, (get_form_id_pfx (ds.map f) (f i)).getD 0)) := by
      unfold drain_unused at hrm
      split at hrm
      · exact absurd hrm (by simp)
      · simp only [Option.some.injEq] at hrm
        rw [← hrm, huem, hkept, List.map_map]
        rfl
    have hlook : ∀ i, lookupIdx rm i =
        if i ∈ ds then some ((get_form_id_pfx (ds.map f) (f i)).getD 0) else none := by
      intro i
      rw [hrm_eq]
      exact lookupIdx_map_graph _ ds i
    have hmapCI : (ds.map f).Pairwise (fun x y => cmpIgnoreCaseAscii x y ≠ .eq) :=
      hdsCI.map f (fun _ _ h => h)
    have hgpos : ∀ n i, ds.get? n = some i →
        (get_form_id_pfx (ds.map f) (f i)).getD 0 = n ∧
        (ds.map f).get? n = some (f i) := by
      intro n i hn
      have hmapn : (ds.map f).get? n = some (f i) := by
        rw [List.get?_map, hn]
        rfl
      have hpfx := findCI_pos (ds.map f) hmapCI n (f i) hmapn
      exact ⟨by rw [hpfx]; rfl, hmapn⟩
    refine ⟨?_, ?_, ?_, ?_⟩
    · intro i hi
      have hids : i ∈ ds := (hdsmem i).mpr hi
      obtain ⟨n, hn⟩ := List.mem_iff_get?.mp hids
      obtain ⟨hg, hmap⟩ := hgpos n i hn
      refine ⟨n, ?_, ?_⟩
      · rw [hlook i, if_pos hids, hg]
      · rw [hdrain1]
        exact hmap
    · intro i n h
      rw [hlook i] at h
      by_cases hids : i ∈ ds
      · exact (hdsmem i).mp hids
      · rw [if_neg hids] at h
        cases h
    · intro i1 i2 n h1 h2
      rw [hlook i1] at h1
      rw [hlook i2] at h2
      by_cases h1ds : i1 ∈ ds
      · by_cases h2ds : i2 ∈ ds
        · rw [if_pos h1ds] at h1
          rw [if_pos h2ds] at h2
          obtain ⟨n1, hn1⟩ := List.mem_iff_get?.mp h1ds
          obtain ⟨n2, hn2⟩ := List.mem_iff_get?.mp h2ds
          obtain ⟨hg1, -⟩ := hgpos n1 i1 hn1
          obtain ⟨hg2, -⟩ := hgpos n2 i2 hn2
          rw [hg1] at h1
          rw [hg2] at h2
          have hn1n : n1 = n := Option.some.inj h1
          have hn2n : n2 = n := Option.some.inj h2
          rw [hn1n] at hn1
          rw [hn2n] at hn2
          rw [hn1] at hn2
          exact Option.some.inj hn2
        · rw [if_neg h2ds] at h2
          cases h2
      · rw [if_neg h1ds] at h1
        cases h1
    · intro n hnlen
      rw [hdrain1, List.length_map] at hnlen
      have hn : ds.get? n = some (ds.get ⟨n, hnlen⟩) := List.get?_eq_get hnlen
      have hids : ds.get ⟨n, hnlen⟩ ∈ ds := List.get_mem ds n hnlen
      obtain ⟨hg, -⟩ := hgpos n _ hn
      refine ⟨ds.get ⟨n, hnlen⟩, ?_⟩
      rw [hlook _, if_pos hids, hg]

theorem c6_witness :
    ([aEsp, bEsp, cEsp].Pairwise (fun x y => cmpIgnoreCaseAscii x y ≠ .eq)) ∧
    (∀ i ∈ ([0, 2] : List Nat), i < ([aEsp, bEsp, cEsp] : List ModName).length) ∧
    (∀ i ∈ ([0, 2] : List Nat),
      ([aEsp, bEsp, cEsp] : List ModName).getD i [] ∈
        (drain_unused [aEsp, bEsp, cEsp] [0, 2]).1) := by
  have h1 : ([aEsp, bEsp, cEsp].Pairwise (fun x y => cmpIgnoreCaseAscii x y ≠ .eq)) := by
    decide
  have h2 : ∀ i ∈ ([0, 2] : List Nat), i < ([aEsp, bEsp, cEsp] : List ModName).length := by
    decide
  exact ⟨h1, h2, (c6_drain_unused_exact [aEsp, bEsp, cEsp] [0, 2] h1 h2).1⟩

/-- Embeds `GlobalFormId` (src/plugin_parser/form_id.rs): `load_order_index`
is the `u16` source index, `id` the `u32` local id. -/
structure GlobalFormId where
  load_order_index : Nat
  id : Nat
deriving DecidableEq, Repr

/-- digit character for values 0–15: '0'–'9' then lowercase 'a'–'f' (the
`{:06x}` format specifier is lowercase hex). -/
def digitChar (n : Nat) : Char :=
  if n < 10 then Char.ofNat (48 + n) else Char.ofNat (87 + n)

/-- decimal digits of `n`, most significant first (`{}` / `{:04}` Display
of an unsigned integer). -/
def decDigits (n : Nat) : List Char :=
  if n < 10 then [digitChar n] else decDigits (n / 10) ++ [digitChar (n % 10)]
decreasing_by exact Nat.div_lt_self (by omega) (by decide)

/-- lowercase hex digits of `n`, most significant first (`{:x}`). -/
def hexDigits (n : Nat) : List Char :=
  if n < 16 then [digitChar n] else hexDigits (n / 16) ++ [digitChar (n % 16)]
decreasing_by exact Nat.div_lt_self (by omega) (by decide)

/-- zero padding to a minimum width (the `04`/`06` in the format string). -/
def pad0 (w : Nat) (s : List Char) : List Char :=
  List.replicate (w - s.length) '0' ++ s

/-- Embeds `Display for GlobalFormId` (src/plugin_parser/form_id.rs):
`{:04}:{:06x}`. -/
def GlobalFormId.to_text (g : GlobalFormId) : List Char :=
  pad0 4 (decDigits g.load_order_index) ++ ':' :: pad0 6 (hexDigits g.id)

/-- `str::split(':')`: the list of ':'-separated parts (an empty string
yields one empty part, as in Rust). -/
def splitColon : List Char → List (List Char)
  | [] => [[]]
  | c :: cs =>
    if c = ':' then [] :: splitColon cs
    else
      match splitColon cs with
      | p :: ps => (c :: p) :: ps
      | [] => [[c]]

/-- value of a decimal digit character. -/
def decVal? (c : Char) : Option Nat :=
  if 48 ≤ c.toNat ∧ c.toNat ≤ 57 then some (c.toNat - 48) else none

/-- value of a hex digit character (`from_str_radix` accepts both cases). -/
def hexVal? (c : Char) : Option Nat :=
  if 48 ≤ c.toNat ∧ c.toNat ≤ 57 then some (c.toNat - 48)
  else if 97 ≤ c.toNat ∧ c.toNat ≤ 102 then some (c.toNat - 87)
  else if 65 ≤ c.toNat ∧ c.toNat ≤ 70 then some (c.toNat - 55)
  else none

/-- accumulator-style digit-string parser shared by the decimal and hex
parsers. -/
def parseNatAux (dv : Char → Option Nat) (base : Nat) : Nat → List Char → Option Nat
  | acc, [] => some acc
  | acc, c :: cs =>
    match dv c with
    | some d => parseNatAux dv base (acc * base + d) cs
    | none => none

/-- the optional leading '+' accepted by Rust's unsigned integer parsers. -/
def stripPlus (s : List Char) : List Char :=
  match s with
  | c :: rest => if c = '+' then rest else s
  | [] => s

/-- `u16::from_str` on a part: optional '+', at least one decimal digit,
value in range (Rust's step-wise overflow check is equivalent to the final
range check because the accumulator is monotone). -/
def parseU16 (s : List Char) : Option Nat :=
  if stripPlus s = [] then none
  else
    match parseNatAux decVal? 10 0 (stripPlus s) with
    | some v => if v < 65536 then some v else none
    | none => none

/-- `u32::from_str_radix(part, 16)`: optional '+', at least one hex digit,
value in range. -/
def parseHexU32 (s : List Char) : Option Nat :=
  if stripPlus s = [] then none
  else
    match parseNatAux hexVal? 16 0 (stripPlus s) with
    | some v => if v < 4294967296 then some v else none
    | none => none

/-- Embeds `FromStr for GlobalFormId` (src/plugin_parser/form_id.rs): take
the first two ':'-separated parts — any further parts are never consumed —
parse the first as decimal u16 and the second as hex u32. -/
def GlobalFormId.from_text (s : List Char) : Option GlobalFormId :=
  match splitColon s with
  | p1 :: p2 :: _ =>
    (match parseU16 p1 with
     | none => none
     | some idx =>
       match parseHexU32 p2 with
       | none => none
       | some i => some ⟨idx, i⟩)
  | _ => none

theorem digit_facts : ∀ d, d < 10 →
    decVal? (digitChar d) = some d ∧ digitChar d ≠ ':' ∧ digitChar d ≠ '+' := by
  decide

theorem hexdigit_facts : ∀ d, d < 16 →
    hexVal? (digitChar d) = some d ∧ digitChar d ≠ ':' ∧ digitChar d ≠ '+' := by
  decide

theorem decDigits_ne_nil (n : Nat) : decDigits n ≠ [] := by
  rw [decDigits]
  split
  · simp
  · simp

theorem hexDigits_ne_nil (n : Nat) : hexDigits n ≠ [] := by
  rw [hexDigits]
  split
  · simp
  · simp

theorem decDigits_mem (n : Nat) : ∀ c ∈ decDigits n, ∃ d, d < 10 ∧ c = digitChar d := by
  induction n using Nat.strong_induction_on with
  | _ n ih =>
    rw [decDigits]
    split
    · rename_i h
      intro c hc
      rw [List.mem_singleton] at hc
      exact ⟨n, h, hc⟩
    · rename_i h
      intro c hc
      rcases List.mem_append.mp hc with h1 | h2
      · exact ih (n / 10) (Nat.div_lt_self (by omega) (by decide)) c h1
      · rw [List.mem_singleton] at h2
        exact ⟨n % 10, Nat.mod_lt _ (by decide), h2⟩

theorem hexDigits_mem (n : Nat) : ∀ c ∈ hexDigits n, ∃ d, d < 16 ∧ c = digitChar d := by
  induction n using Nat.strong_induction_on with
  | _ n ih =>
    rw [hexDigits]
    split
    · rename_i h
      intro c hc
      rw [List.mem_singleton] at hc
      exact ⟨n, h, hc⟩
    · rename_i h
      intro c hc
      rcases List.mem_append.mp hc with h1 | h2
      · exact ih (n / 16) (Nat.div_lt_self (by omega) (by decide)) c h1
      · rw [List.mem_singleton] at h2
        exact ⟨n % 16, Nat.mod_lt _ (by decide), h2⟩

theorem pad0_mem (w : Nat) (s : List Char) :
    ∀ c ∈ pad0 w s, c = '0' ∨ c ∈ s := by
  intro c hc
  rcases List.mem_append.mp hc with h1 | h2
  · exact Or.inl (List.eq_of_mem_replicate h1)
  · exact Or.inr h2

theorem pad0_ne_nil (w : Nat) (s : List Char) (h : s ≠ []) : pad0 w s ≠ [] := by
  unfold pad0
  intro hcon
  exact h (List.append_eq_nil.mp hcon).2

theorem stripPlus_eq_of_ne (s : List Char) (h : ∀ c ∈ s, c ≠ '+') : stripPlus s = s := by
  cases s with
  | nil => rfl
  | cons c cs =>
    show (if c = '+' then cs else c :: cs) = c :: cs
    rw [if_neg (h c (List.mem_cons_self c cs))]

theorem splitColon_no (xs : List Char) (h : ∀ c ∈ xs, c ≠ ':') :
    splitColon xs = [xs] := by
  induction xs with
  | nil => rfl
  | cons c cs ih =>
    rw [splitColon]
    rw [if_neg (h c (List.mem_cons_self c cs))]
    rw [ih (fun x hx => h x (List.mem_cons_of_mem c hx))]

theorem splitColon_append (xs ys : List Char) (h : ∀ c ∈ xs, c ≠ ':') :
    splitColon (xs ++ ':' :: ys) = xs :: splitColon ys := by
  induction xs with
  | nil =>
    rw [List.nil_append, splitColon, if_pos rfl]
  | cons c cs ih =>
    rw [List.cons_append, splitColon]
    rw [if_neg (h c (List.mem_cons_self c cs))]
    rw [ih (fun x hx => h x (List.mem_cons_of_mem c hx))]

theorem parseNatAux_append (dv : Char → Option Nat) (b : Nat) :
    ∀ (ds es : List Char) (acc : Nat),
    parseNatAux dv b acc (ds ++ es) =
      match parseNatAux dv b acc ds with
      | some v => parseNatAux dv b v es
      | none => none := by
  intro ds
  induction ds with
  | nil => intro es acc; simp [parseNatAux]
  | cons c cs ih =>
    intro es acc
    rw [List.cons_append]
    rw [parseNatAux, parseNatAux]
    cases dv c with
    | none => rfl
    | some d => exact ih es (acc * b + d)

theorem parse_zeros (dv : Char → Option Nat) (b : Nat) (hz : dv '0' = some 0) :
    ∀ (k acc : Nat), parseNatAux dv b acc (List.replicate k '0') = some (acc * b ^ k) := by
  intro k
  induction k with
  | zero => intro acc; simp [parseNatAux]
  | succ k ih =>
    intro acc
    rw [List.replicate_succ, parseNatAux, hz]
    show parseNatAux dv b (acc * b + 0) (List.replicate k '0') = some (acc * b ^ (k + 1))
    rw [ih (acc * b + 0)]
    congr 1
    rw [Nat.add_zero, Nat.pow_succ]
    ring

theorem parse_decDigits (n : Nat) : ∀ acc,
    parseNatAux decVal? 10 acc (decDigits n) =
      some (acc * 10 ^ (decDigits n).length + n) := by
  induction n using Nat.strong_induction_on with
  | _ n ih =>
    intro acc
    rw [decDigits]
    split
    · rename_i h
      rw [parseNatAux, (digit_facts n h).1]
      show parseNatAux decVal? 10 (acc * 10 + n) [] = _
      rw [parseNatAux]
      simp
    · rename_i h
      rw [parseNatAux_append]
      rw [ih (n / 10) (Nat.div_lt_self (by omega) (by decide)) acc]
      show parseNatAux decVal? 10 (acc * 10 ^ (decDigits (n / 10)).length + n / 10)
        [digitChar (n % 10)] = _
      rw [parseNatAux, (digit_facts (n % 10) (Nat.mod_lt _ (by decide))).1]
      show some ((acc * 10 ^ (decDigits (n / 10)).length + n / 10) * 10 + n % 10) = _
      rw [List.length_append, List.length_singleton, pow_succ]
      congr 1
      calc (acc * 10 ^ (decDigits (n / 10)).length + n / 10) * 10 + n % 10
          = acc * (10 ^ (decDigits (n / 10)).length * 10) + (10 * (n / 10) + n % 10) := by
            ring
        _ = acc * (10 ^ (decDigits (n / 10)).length * 10) + n := by
            rw [Nat.div_add_mod]

theorem parse_hexDigits (n : Nat) : ∀ acc,
    parseNatAux hexVal? 16 acc (hexDigits n) =
      some (acc * 16 ^ (hexDigits n).length + n) := by
  induction n using Nat.strong_induction_on with
  | _ n ih =>
    intro acc
    rw [hexDigits]
    split
    · rename_i h
      rw [parseNatAux, (hexdigit_facts n h).1]
      show parseNatAux hexVal? 16 (acc * 16 + n) [] = _
      rw [parseNatAux]
      simp
    · rename_i h
      rw [parseNatAux_append]
      rw [ih (n / 16) (Nat.div_lt_self (by omega) (by decide)) acc]
      show parseNatAux hexVal? 16 (acc * 16 ^ (hexDigits (n / 16)).length + n / 16)
        [digitChar (n % 16)] = _
      rw [parseNatAux, (hexdigit_facts (n % 16) (Nat.mod_lt _ (by decide))).1]
      show some ((acc * 16 ^ (hexDigits (n / 16)).length + n / 16) * 16 + n % 16) = _
      rw [List.length_append, List.length_singleton, pow_succ]
      congr 1
      calc (acc * 16 ^ (hexDigits (n / 16)).length + n / 16) * 16 + n % 16
          = acc * (16 ^ (hexDigits (n / 16)).length * 16) + (16 * (n / 16) + n % 16) := by
            ring
        _ = acc * (16 ^ (hexDigits (n / 16)).length * 16) + n := by
            rw [Nat.div_add_mod]

theorem parseU16_pad_dec (n : Nat) (hn : n < 65536) :
    parseU16 (pad0 4 (decDigits n)) = some n := by
  have hplus : ∀ c ∈ pad0 4 (decDigits n), c ≠ '+' := by
    intro c hc
    rcases pad0_mem _ _ c hc with rfl | hmem
    · decide
    · obtain ⟨d, hd, rfl⟩ := decDigits_mem n c hmem
      exact (digit_facts d hd).2.2
  rw [parseU16, stripPlus_eq_of_ne _ hplus]
  rw [if_neg (pad0_ne_nil _ _ (decDigits_ne_nil n))]
  unfold pad0
  rw [parseNatAux_append, parse_zeros decVal? 10 (by decide)]
  show (match parseNatAux decVal? 10 (0 * 10 ^ (4 - (decDigits n).length)) (decDigits n) with
    | some v => if v < 65536 then some v else none
    | none => none) = some n
  rw [Nat.zero_mul, parse_decDigits n 0]
  show (if 0 * 10 ^ (decDigits n).length + n < 65536 then
      some (0 * 10 ^ (decDigits n).length + n) else none) = some n
  rw [Nat.zero_mul, Nat.zero_add, if_pos hn]

theorem parseHexU32_pad_hex (n : Nat) (hn : n < 4294967296) :
    parseHexU32 (pad0 6 (hexDigits n)) = some n := by
  have hplus : ∀ c ∈ pad0 6 (hexDigits n), c ≠ '+' := by
    intro c hc
    rcases pad0_mem _ _ c hc with rfl | hmem
    · decide
    · obtain ⟨d, hd, rfl⟩ := hexDigits_mem n c hmem
      exact (hexdigit_facts d hd).2.2
  rw [parseHexU32, stripPlus_eq_of_ne _ hplus]
  rw [if_neg (pad0_ne_nil _ _ (hexDigits_ne_nil n))]
  unfold pad0
  rw [parseNatAux_append, parse_zeros hexVal? 16 (by decide)]
  show (match parseNatAux hexVal? 16 (0 * 16 ^ (6 - (hexDigits n).length)) (hexDigits n) with
    | some v => if v < 4294967296 then some v else none
    | none => none) = some n
  rw [Nat.zero_mul, parse_hexDigits n 0]
  show (if 0 * 16 ^ (hexDigits n).length + n < 4294967296 then
      some (0 * 16 ^ (hexDigits n).length + n) else none) = some n
  rw [Nat.zero_mul, Nat.zero_add, if_pos hn]

/-- C8: rendering a GlobalFormId as `NNNN:XXXXXX` (zero-padded decimal
index, lowercase hex id) and parsing it back yields the same
GlobalFormId, for every in-range (u16, u32) pair. -/
theorem c8_from_text_to_text (g : GlobalFormId)
    (hidx : g.load_order_index < 65536) (hid : g.id < 4294967296) :
    GlobalFormId.from_text (GlobalFormId.to_text g) = some g := by
  obtain ⟨idx, i⟩ := g
  have hnc1 : ∀ c ∈ pad0 4 (decDigits idx), c ≠ ':' := by
    intro c hc
    rcases pad0_mem _ _ c hc with rfl | hmem
    · decide
    · obtain ⟨d, hd, rfl⟩ := decDigits_mem idx c hmem
      exact (digit_facts d hd).2.1
  have hnc2 : ∀ c ∈ pad0 6 (hexDigits i), c ≠ ':' := by
    intro c hc
    rcases pad0_mem _ _ c hc with rfl | hmem
    · decide
    · obtain ⟨d, hd, rfl⟩ := hexDigits_mem i c hmem
      exact (hexdigit_facts d hd).2.1
  rw [GlobalFormId.to_text, GlobalFormId.from_text]
  rw [splitColon_append _ _ hnc1, splitColon_no _ hnc2]
  show (match parseU16 (pad0 4 (decDigits idx)) with
    | none => none
    | some idx2 =>
      match parseHexU32 (pad0 6 (hexDigits i)) with
      | none => none
      | some i2 => some (GlobalFormId.mk idx2 i2)) = some (GlobalFormId.mk idx i)
  rw [parseU16_pad_dec idx hidx, parseHexU32_pad_hex i hid]

theorem c8_witness :
    ((4 : Nat) < 65536) ∧ ((4128769 : Nat) < 4294967296) ∧
    GlobalFormId.from_text (GlobalFormId.to_text (GlobalFormId.mk 4 4128769)) =
      some (GlobalFormId.mk 4 4128769) :=
  ⟨by decide, by decide, c8_from_text_to_text (GlobalFormId.mk 4 4128769) (by decide) (by decide)⟩

/-- C10: `from_str` only consumes the first two ':'-separated parts —
further parts are ignored, so a string with trailing ':'-separated garbage
parses exactly like its first two parts, and it succeeds precisely when the
first part is a valid decimal u16 and the second valid hexadecimal; in
particular "0004:3f0001:garbage" parses to the same GlobalFormId as
"0004:3f0001". -/
theorem c10_from_text_lenient (p1 p2 rest : List Char)
    (h1 : ∀ c ∈ p1, c ≠ ':') (h2 : ∀ c ∈ p2, c ≠ ':') :
    GlobalFormId.from_text (p1 ++ ':' :: (p2 ++ ':' :: rest)) =
      GlobalFormId.from_text (p1 ++ ':' :: p2) ∧
    (∀ a b, parseU16 p1 = some a → parseHexU32 p2 = some b →
      GlobalFormId.from_text (p1 ++ ':' :: (p2 ++ ':' :: rest)) =
        some (GlobalFormId.mk a b)) ∧
    GlobalFormId.from_text
        ['0', '0', '0', '4', ':', '3', 'f', '0', '0', '0', '1', ':',
         'g', 'a', 'r', 'b', 'a', 'g', 'e'] =
      some (GlobalFormId.mk 4 4128769) := by
  have hsplit1 : splitColon (p1 ++ ':' :: (p2 ++ ':' :: rest)) =
      p1 :: p2 :: splitColon rest := by
    rw [splitColon_append _ _ h1, splitColon_append _ _ h2]
  have hsplit2 : splitColon (p1 ++ ':' :: p2) = [p1, p2] := by
    rw [splitColon_append _ _ h1, splitColon_no _ h2]
  refine ⟨?_, ?_, by decide⟩
  · rw [GlobalFormId.from_text, GlobalFormId.from_text, hsplit1, hsplit2]
  · intro a b hpa hpb
    rw [GlobalFormId.from_text, hsplit1]
    show (match parseU16 p1 with
      | none => none
      | some idx =>
        match parseHexU32 p2 with
        | none => none
        | some i => some (GlobalFormId.mk idx i)) = some (GlobalFormId.mk a b)
    rw [hpa, hpb]

theorem c10_witness :
    (∀ c ∈ ['0', '0', '0', '4'], c ≠ ':') ∧
    (∀ c ∈ ['3', 'f', '0', '0', '0', '1'], c ≠ ':') ∧
    GlobalFormId.from_text
        (['0', '0', '0', '4'] ++ ':' :: (['3', 'f', '0', '0', '0', '1'] ++ ':' ::
          ['g', 'a', 'r', 'b', 'a', 'g', 'e'])) =
      GlobalFormId.from_text (['0', '0', '0', '4'] ++ ':' :: ['3', 'f', '0', '0', '0', '1']) := by
  have h1 : ∀ c ∈ ['0', '0', '0', '4'], c ≠ ':' := by decide
  have h2 : ∀ c ∈ ['3', 'f', '0', '0', '0', '1'], c ≠ ':' := by decide
  exact ⟨h1, h2, (c10_from_text_lenient _ _ _ h1 h2).1⟩
